import Mathlib

/-!
Verification of the manga-organizer nested-archive pipeline.

This file gives a shallow embedding of the core of the repository:
the name normalizer (`_clean_series_name`, `_extract_volume_number`,
`_clean_and_generate_cbz_name`), the archive inspectors
(`_check_nested_rar`, `_is_nested_rar`), the container packer
(`_create_cbz_from_directory` in both processors), the two progress
stores (`ProgressTracker`, `SimpleTracker`) and the per-file / batch
drivers of `nested_rar_processor.py` (V1) and
`nested_rar_processor_v2.py` (V2), and proves or refutes the frozen
claims about them.

Filesystem effects are modelled explicitly: a filesystem is a list of
paths (each a list of components); extraction, container creation and
`shutil.rmtree` act on it.  Archive contents and the outcomes of the
fallible `rarfile` operations are supplied as oracle data in the
archive descriptions, so one Lean value describes one concrete run of
the Python code on one source archive.
-/

/-! ## Python string helpers (`pathlib.Path.name`, `.stem`, `.suffix`) -/

/-- Digit character, as matched by `\d` on the ASCII range. -/
def isDigitC (c : Char) : Bool := 48 ≤ c.toNat && c.toNat ≤ 57

/-- Whitespace as matched by Python's `\s` / `str.strip()` on the
characters that occur in this code base (ASCII whitespace plus NBSP and
the ideographic space). -/
def isSpaceC (c : Char) : Bool :=
  c = ' ' || c = '\t' || c = '\n' || c = '\r' ||
  c.toNat = 11 || c.toNat = 12 || c.toNat = 160 || c.toNat = 12288

/-- Numeric value of a digit string, as `int()` on a `\d+` group. -/
def digitsVal (cs : List Char) : Nat :=
  cs.foldl (fun a c => a * 10 + (c.toNat - 48)) 0

/-- Split a character list on `/`. -/
def splitSlash : List Char → List (List Char)
  | [] => [[]]
  | c :: rest =>
    match splitSlash rest with
    | [] => [[]]
    | cur :: parts => if c = '/' then [] :: cur :: parts else (c :: cur) :: parts

/-- The components of a POSIX path string. -/
def pathComponents (p : String) : List String :=
  (splitSlash p.data).map (fun cs => (⟨cs⟩ : String))

/-- `pathlib.Path(p).name`: the last path component, after dropping
empty and `.` components. -/
def pyName (p : String) : String :=
  (((pathComponents p).filter (fun c => c ≠ "" && c ≠ ".")).getLast?).getD ""

/-- Index of the last `.` in a character list, if any. -/
def lastDotIdx (cs : List Char) : Option Nat :=
  (List.range cs.length).foldl
    (fun acc i => if cs.getD i ' ' = '.' then some i else acc) none

/-- `pathlib.PurePath.stem` applied to a bare name: the name without
its final suffix.  The suffix only exists when the last dot is neither
the first nor the last character of the name. -/
def pyStemOf (name : String) : String :=
  match lastDotIdx name.data with
  | some i => if 0 < i ∧ i < name.data.length - 1 then ⟨name.data.take i⟩ else name
  | none => name

/-- `pathlib.PurePath.suffix` applied to a bare name. -/
def pySuffixOf (name : String) : String :=
  match lastDotIdx name.data with
  | some i => if 0 < i ∧ i < name.data.length - 1 then ⟨name.data.drop i⟩ else ""
  | none => ""

/-- `Path(p).stem`. -/
def pyStemName (p : String) : String := pyStemOf (pyName p)

/-- `Path(p).with_suffix(suf)` for the forward-slash paths used by the
trackers. -/
def pyWithSuffix (p suf : String) : String :=
  let comps := pathComponents p
  match comps.getLast? with
  | none => suf
  | some last => String.intercalate "/" (comps.dropLast ++ [pyStemOf last ++ suf])

/-- Lower-casing restricted to ASCII letters, as `str.lower()` acts on
the extensions used here. -/
def asciiLower (s : String) : String :=
  ⟨s.data.map (fun c => if 65 ≤ c.toNat ∧ c.toNat ≤ 90 then Char.ofNat (c.toNat + 32) else c)⟩

/-- Upper-casing restricted to ASCII letters, as `str.upper()` acts on
the extensions used here. -/
def asciiUpper (s : String) : String :=
  ⟨s.data.map (fun c => if 97 ≤ c.toNat ∧ c.toNat ≤ 122 then Char.ofNat (c.toNat - 32) else c)⟩

/-! ## Regex machinery

Each regular expression used by the processors is embedded as an
anchored matcher `List Char → Option (Nat × Nat)` returning the length
of the match at the head of the input together with the numeric value
of its first capture group (0 when the pattern has no group).
`re.search` is leftmost search with such a matcher; `re.sub(p, '', s)`
removes all non-overlapping matches left to right. -/

/-- Leftmost search: try the anchored matcher at every position, left to
right, returning the captured value of the first match. -/
def searchFirstGo (m : List Char → Option (Nat × Nat)) : Nat → List Char → Option Nat
  | 0, _ => none
  | fuel + 1, s =>
    match m s with
    | some (_, v) => some v
    | none =>
      match s with
      | [] => none
      | _ :: rest => searchFirstGo m fuel rest

/-- `re.search(p, s)` returning the first capture group's value. -/
def searchFirst (m : List Char → Option (Nat × Nat)) (s : List Char) : Option Nat :=
  searchFirstGo m (s.length + 1) s

/-- Remove all non-overlapping matches, left to right (`re.sub(p, '', s)`). -/
def subAllGo (m : List Char → Option (Nat × Nat)) : Nat → List Char → List Char
  | 0, s => s
  | fuel + 1, s =>
    match m s with
    | some (k, _) =>
      if k = 0 then
        match s with
        | [] => []
        | c :: rest => c :: subAllGo m fuel rest
      else subAllGo m fuel (s.drop k)
    | none =>
      match s with
      | [] => []
      | c :: rest => c :: subAllGo m fuel rest

/-- `re.sub(p, '', s)` for an anchored matcher. -/
def subAll (m : List Char → Option (Nat × Nat)) (s : List Char) : List Char :=
  subAllGo m (s.length + 1) s

/-- Matcher for a literal tag followed by `\s*`
(the `JAPANESE_TAG_PATTERNS` entries). -/
def mTag (tag : List Char) (s : List Char) : Option (Nat × Nat) :=
  if tag ≠ [] ∧ tag.isPrefixOf s then
    some (tag.length + ((s.drop tag.length).takeWhile isSpaceC).length, 0)
  else none

/-- Matcher for `全\d+巻` / `全\d+卷` (the marker character is the
argument). -/
def mZen (marker : Char) (s : List Char) : Option (Nat × Nat) :=
  match s with
  | c :: rest =>
    if c = '全' then
      let ds := rest.takeWhile isDigitC
      if ds ≠ [] ∧ (rest.drop ds.length).head? = some marker then
        some (ds.length + 2, 0)
      else none
    else none
  | [] => none

/-- Matcher for `第(\d+)巻` / `第(\d+)卷`. -/
def mDai (marker : Char) (s : List Char) : Option (Nat × Nat) :=
  match s with
  | c :: rest =>
    if c = '第' then
      let ds := rest.takeWhile isDigitC
      if ds ≠ [] ∧ (rest.drop ds.length).head? = some marker then
        some (ds.length + 2, digitsVal ds)
      else none
    else none
  | [] => none

/-- Matcher for `[Vv]ol[._\s]*(\d+)`. -/
def mVol (s : List Char) : Option (Nat × Nat) :=
  match s with
  | v :: o :: l :: rest =>
    if (v = 'V' ∨ v = 'v') ∧ o = 'o' ∧ l = 'l' then
      let seps := rest.takeWhile (fun c => c = '.' || c = '_' || isSpaceC c)
      let ds := (rest.drop seps.length).takeWhile isDigitC
      if ds ≠ [] then some (3 + seps.length + ds.length, digitsVal ds) else none
    else none
  | _ => none

/-- Matcher for `v(\d+)`. -/
def mLowV (s : List Char) : Option (Nat × Nat) :=
  match s with
  | c :: rest =>
    if c = 'v' then
      let ds := rest.takeWhile isDigitC
      if ds ≠ [] then some (1 + ds.length, digitsVal ds) else none
    else none
  | [] => none

/-- Matcher for `\s+(\d{2,3})\s*`.  The greedy two-to-three digit group
takes the first three digits of the run (or two when only two exist);
the trailing `\s*` is consumed only when the digit run is exhausted. -/
def mSpaceNum (s : List Char) : Option (Nat × Nat) :=
  match s with
  | c :: _ =>
    if isSpaceC c then
      let ws := s.takeWhile isSpaceC
      let ds := (s.drop ws.length).takeWhile isDigitC
      if ds.length < 2 then none
      else
        let g := ds.take 3
        let trail :=
          if ds.length ≤ 3 then ((s.drop (ws.length + ds.length)).takeWhile isSpaceC).length
          else 0
        some (ws.length + g.length + trail, digitsVal g)
    else none
  | [] => none

/-- Matcher for `[_-](\d{2,3})[\._]`: three digits then a separator, or
else two digits then a separator. -/
def mSepNum (s : List Char) : Option (Nat × Nat) :=
  match s with
  | c :: rest =>
    if c = '_' ∨ c = '-' then
      let ds := rest.takeWhile isDigitC
      if ds.length = 3 ∧ ((rest.drop 3).head? = some '.' ∨ (rest.drop 3).head? = some '_') then
        some (5, digitsVal (ds.take 3))
      else if ds.length = 2 ∧ ((rest.drop 2).head? = some '.' ∨ (rest.drop 2).head? = some '_') then
        some (4, digitsVal (ds.take 2))
      else none
    else none
  | [] => none

/-- Matcher for the bare fallback `(\d{2,3})`. -/
def mBareNum (s : List Char) : Option (Nat × Nat) :=
  let ds := s.takeWhile isDigitC
  if 2 ≤ ds.length then some ((ds.take 3).length, digitsVal (ds.take 3)) else none

/-! ## The name normalizer -/

/-- `JAPANESE_TAG_PATTERNS`, identical in both processors. -/
def japaneseTagPatterns : List String :=
  ["【一般コミック】", "【少年コミック】", "【青年コミック】", "【少女コミック】",
   "【女性コミック】", "【成年コミック】", "【漫画雑誌】",
   "[一般コミック]", "[少年コミック]", "[青年コミック]"]

/-- `VOLUME_PATTERNS`, in their frozen order: explicit source-language
volume markers first, then `Vol.`/`v` markers, then bare numeric
tokens. -/
def volumeMatchers : List (List Char → Option (Nat × Nat)) :=
  [mDai '巻', mDai '卷', mVol, mLowV, mSpaceNum, mSepNum]

/-- Characters deleted by the quote-stripping substitution
`[「」『』\[\]（）()]`. -/
def quoteChars : List Char := ['「', '」', '『', '』', '[', ']', '（', '）', '(', ')']

/-- Collapse every whitespace run to a single space (`re.sub(r'\s+', ' ', s)`). -/
def collapseWsGo : Nat → List Char → List Char
  | 0, s => s
  | _ + 1, [] => []
  | fuel + 1, c :: rest =>
    if isSpaceC c then ' ' :: collapseWsGo fuel (rest.dropWhile isSpaceC)
    else c :: collapseWsGo fuel rest

/-- `re.sub(r'\s+', ' ', s)`. -/
def collapseWs (s : List Char) : List Char := collapseWsGo (s.length + 1) s

/-- `str.strip()`. -/
def pyStripWs (s : List Char) : List Char :=
  ((s.dropWhile isSpaceC).reverse.dropWhile isSpaceC).reverse

/-- The `str.strip` call with separator set space, hyphen, underscore. -/
def stripSep (s : List Char) : List Char :=
  let p := fun c => c = ' ' || c = '-' || c = '_'
  ((s.dropWhile p).reverse.dropWhile p).reverse

/-- Strip every `JAPANESE_TAG_PATTERNS` entry from a name, in pattern
order. -/
def stripJapaneseTags (s : List Char) : List Char :=
  japaneseTagPatterns.foldl (fun n tag => subAll (mTag tag.data) n) s

/-- The common tail of the series cleanup: strip `全N巻`/`全N卷`
annotations, delete quote punctuation, collapse whitespace, trim, and
trim separators. -/
def seriesCleanup (s : List Char) : List Char :=
  let s := subAll (mZen '巻') s
  let s := subAll (mZen '卷') s
  let s := s.filter (fun c => !(quoteChars.contains c))
  let s := stripSep (pyStripWs (collapseWs s))
  s

/-- `NestedRARProcessorV2._clean_series_name`. -/
def cleanSeriesName (filename : String) : String :=
  ⟨seriesCleanup (stripJapaneseTags (pyStemName filename).data)⟩

/-- `NestedRARProcessorV2._extract_volume_number`: try the ordered
pattern list over the stem, first matching pattern wins. -/
def extractVolumeNumber (filename : String) : Option Nat :=
  let name := (pyStemName filename).data
  volumeMatchers.foldl (fun acc m => acc <|> searchFirst m name) none

/-- The zero-padded volume format `v{:02d}` applied to n. -/
def fmtV02 (n : Nat) : String :=
  "v" ++ (if n < 10 then "0" ++ toString n else toString n)

/-- Zero-padded `{:02d}`. -/
def pad2 (n : Nat) : String :=
  if n < 10 then "0" ++ toString n else toString n

/-- Characters removed by the illegal-filename-character substitution. -/
def illegalChars : List Char := ['<', '>', ':', '"', '/', '\\', '|', '?', '*']

/-- The substitution deleting the filesystem-illegal characters. -/
def sanitizeIllegal (s : String) : String :=
  ⟨s.data.filter (fun c => !(illegalChars.contains c))⟩

/-- The volume-extraction loop of
`NestedRARProcessor._clean_and_generate_cbz_name`: on the first pattern
that matches, format the volume and remove the pattern's occurrences
from the working name. -/
def extractVolV1Go :
    List (List Char → Option (Nat × Nat)) → List Char → Option String × List Char
  | [], name => (none, name)
  | m :: ms, name =>
    match searchFirst m name with
    | some v => (some (fmtV02 v), subAll m name)
    | none => extractVolV1Go ms name

/-- `NestedRARProcessor._clean_and_generate_cbz_name`. -/
def cleanAndGenerateCbzNameV1 (filename parentName : String) : String :=
  let name := stripJapaneseTags (pyStemName filename).data
  let parentStem := stripJapaneseTags (pyStemName parentName).data
  let (vol, nameAfter) := extractVolV1Go volumeMatchers name
  let vol :=
    match vol with
    | some v => some v
    | none => (searchFirst mBareNum nameAfter).map fmtV02
  let series : String := ⟨seriesCleanup parentStem⟩
  let base :=
    match vol with
    | some v => series ++ " " ++ v ++ ".cbz"
    | none => series ++ ".cbz"
  sanitizeIllegal base

/-! ## Paths and the filesystem model -/

/-- A filesystem path, as a list of components. -/
abbrev AbsPath := List String

/-- A path relative to an extraction workspace root. -/
abbrev RelPath := List String

/-- A filesystem: the collection of files that currently exist. -/
abbrev FS := List AbsPath

/-- The last component of a relative path (`Path.name` of an extracted
item). -/
def lastComp (p : RelPath) : String := (p.getLast?).getD ""

/-- `shutil.rmtree(dir)`: remove every file below `dir`. -/
def rmtree (dir : AbsPath) (fs : FS) : FS :=
  fs.filter (fun p => !(dir.isPrefixOf p))

/-! ## Extension classification -/

/-- `RAR_EXTENSIONS`, identical in both processors. -/
def rarExtensions : List String := [".rar", ".cbr"]

/-- `IMAGE_EXTENSIONS`, identical in both processors. -/
def imageExtensions : List String := [".jpg", ".jpeg", ".png", ".gif", ".bmp", ".webp"]

/-- `Path(name).suffix.lower() in RAR_EXTENSIONS`. -/
def hasRarExt (name : String) : Bool :=
  rarExtensions.contains (asciiLower (pySuffixOf (pyName name)))

/-- The same check on a workspace-relative path (`item.suffix.lower()`). -/
def hasRarExtPath (p : RelPath) : Bool := hasRarExt (lastComp p)

/-- Suffix test on strings (`str.endswith`). -/
def endsWithL (s suffixStr : String) : Bool :=
  (suffixStr.data.reverse).isPrefixOf (s.data.reverse)

/-- Collection predicate of `_create_cbz_from_directory`: the two rglob
passes `*{ext}` and `*{ext.upper()}` collect exactly the files whose
final component ends in a supported image extension written in
all-lowercase or all-uppercase form. -/
def qualifiesImage (p : RelPath) : Bool :=
  imageExtensions.any (fun ext =>
    endsWithL (lastComp p) ext || endsWithL (lastComp p) (asciiUpper ext))

/-! ## Deterministic orderings used by the packers

Python compares strings by code point and `pathlib` paths by their
component tuples; both are embedded as executable lexicographic
comparisons. -/

/-- Strict code-point lexicographic order on character lists
(Python string `<`). -/
def charListLtB : List Char → List Char → Bool
  | [], [] => false
  | [], _ :: _ => true
  | _ :: _, [] => false
  | a :: as, b :: bs => a.toNat < b.toNat || (a = b && charListLtB as bs)

/-- Python string `<`. -/
def strLtB (s t : String) : Bool := charListLtB s.data t.data

/-- Python string `<=`. -/
def strLeB (s t : String) : Bool := !(strLtB t s)

/-- Strict `pathlib` path order: lexicographic on the component lists. -/
def pathLtB : List String → List String → Bool
  | [], [] => false
  | [], _ :: _ => true
  | _ :: _, [] => false
  | a :: as, b :: bs => strLtB a b || (a = b && pathLtB as bs)

/-- Non-strict `pathlib` path order. -/
def pathLeB (p q : List String) : Bool := !(pathLtB q p)

/-- V2 orders collected paths by `pathlib` comparison. -/
def pathLeP (p q : RelPath) : Prop := pathLeB p q = true

instance : DecidableRel pathLeP := fun p q => instDecidableEqBool (pathLeB p q) true

/-- V1 orders collected paths by base filename only
(`image_files.sort(key=lambda x: x.name)`). -/
def nameLeP (p q : RelPath) : Prop := strLeB (lastComp p) (lastComp q) = true

instance : DecidableRel nameLeP := fun p q =>
  instDecidableEqBool (strLeB (lastComp p) (lastComp q)) true

/-! ## The container packers -/

/-- `NestedRARProcessorV2._create_cbz_from_directory`, abstracted over
the workspace contents: collect the image files, return `none` (no
container is written) when there are none, otherwise the container's
entry list — the collected files sorted by `pathlib` path order, each
entry named by its path relative to the workspace root. -/
def createCbzV2 (ws : List RelPath) : Option (List RelPath) :=
  let images := ws.filter qualifiesImage
  if images.isEmpty then none
  else some (List.insertionSort pathLeP images)

/-- `NestedRARProcessor._create_cbz_from_directory`: as V2 but sorting
by base filename, and writing a stored (uncompressed) container; it
returns nothing, creating a container only when images exist. -/
def createCbzV1 (ws : List RelPath) : Option (List RelPath) :=
  let images := ws.filter qualifiesImage
  if images.isEmpty then none
  else some (List.insertionSort nameLeP images)

/-- The entry name a packed file gets: its workspace-relative path
joined with `/`. -/
def entryName (p : RelPath) : String := String.intercalate "/" p

/-- Boolean check that a list of entries is in ascending entry-name
order. -/
def sortedByEntryName : List RelPath → Bool
  | [] => true
  | [_] => true
  | p :: q :: rest => strLeB (entryName p) (entryName q) && sortedByEntryName (q :: rest)

/-! ## The progress stores -/

/-- `FileProgress` of `progress_tracker.py` (timestamps are abstract
strings supplied by the caller as the current time). -/
structure FileProgress where
  file_path : String
  status : String
  started_at : Option String := none
  completed_at : Option String := none
  error : Option String := none
  output_files : List AbsPath := []
  retry_count : Nat := 0
deriving Repr, DecidableEq

/-- The incrementally maintained counters of the detailed tracker. -/
structure TrackerStatistics where
  total_files : Nat := 0
  pending : Nat := 0
  processing : Nat := 0
  completed : Nat := 0
  failed : Nat := 0
deriving Repr, DecidableEq

/-- The persisted document of `ProgressTracker` (sessions omitted; the
claims under verification concern the per-file records and counters). -/
structure ProgressData where
  files : List (String × FileProgress) := []
  statistics : TrackerStatistics := {}
deriving Repr, DecidableEq

/-- Association-list lookup for the `files` mapping. -/
def ProgressData.lookup (d : ProgressData) (p : String) : Option FileProgress :=
  (d.files.find? (fun e => e.1 = p)).map Prod.snd

/-- Replace the record of one path. -/
def ProgressData.setFile (d : ProgressData) (p : String) (fp : FileProgress) : ProgressData :=
  { d with files := d.files.map (fun e => if e.1 = p then (p, fp) else e) }

/-- `ProgressTracker.add_file`: register a pending record when the path
is unknown. -/
def ProgressData.addFile (d : ProgressData) (p : String) : ProgressData :=
  match d.lookup p with
  | some _ => d
  | none =>
    { d with
      files := d.files ++ [(p, { file_path := p, status := "pending" })]
      statistics :=
        { d.statistics with
          total_files := d.statistics.total_files + 1
          pending := d.statistics.pending + 1 } }

/-- `ProgressTracker.start_processing`. -/
def ProgressData.startProcessing (d : ProgressData) (p now : String) : ProgressData :=
  match d.lookup p with
  | none => d
  | some fp =>
    let stats := d.statistics
    let stats :=
      if fp.status = "pending" then { stats with pending := stats.pending - 1 }
      else if fp.status = "failed" then { stats with failed := stats.failed - 1 }
      else stats
    let stats := { stats with processing := stats.processing + 1 }
    { d.setFile p { fp with status := "processing", started_at := some now } with
      statistics := stats }

/-- `ProgressTracker.mark_completed`. -/
def ProgressData.markCompleted (d : ProgressData) (p : String)
    (outs : List AbsPath) (now : String) : ProgressData :=
  match d.lookup p with
  | none => d
  | some fp =>
    { d.setFile p
        { fp with
          status := "completed", completed_at := some now
          output_files := outs, error := none } with
      statistics :=
        { d.statistics with
          processing := d.statistics.processing - 1
          completed := d.statistics.completed + 1 } }

/-- `ProgressTracker.mark_failed`. -/
def ProgressData.markFailed (d : ProgressData) (p err now : String) : ProgressData :=
  match d.lookup p with
  | none => d
  | some fp =>
    { d.setFile p
        { fp with
          status := "failed", completed_at := some now
          error := some err, retry_count := fp.retry_count + 1 } with
      statistics :=
        { d.statistics with
          processing := d.statistics.processing - 1
          failed := d.statistics.failed + 1 } }

/-- `ProgressTracker.is_file_processed`. -/
def ProgressData.isFileProcessed (d : ProgressData) (p : String) : Bool :=
  match d.lookup p with
  | some fp => fp.status = "completed"
  | none => false

/-- The in-memory state of `SimpleTracker`: the set of completed base
filenames. -/
abbrev SimpleState := List String

/-- `SimpleTracker.is_completed`: membership of the base filename. -/
def simpleIsCompleted (st : SimpleState) (filePath : String) : Bool :=
  st.contains (pyName filePath)

/-- `SimpleTracker.mark_completed`: insert the base filename. -/
def simpleMarkCompleted (st : SimpleState) (filePath : String) : SimpleState :=
  pyName filePath :: st

/-! ## The persistence discipline (claim C2)

A save operation is modelled by the sequence of filesystem operations
it performs.  A plain `write` streams its content, so a reader may
observe any strict prefix of the new content while it is in progress; a
`rename` is atomic. -/

/-- A filesystem operation performed by a save. -/
inductive FsOp where
  | write (path : String) (content : String)
  | rename (src dst : String)
deriving Repr, DecidableEq

/-- A flat file store. -/
abbrev FileEnv := List (String × String)

/-- Content of a path in the store. -/
def envGet : FileEnv → String → Option String
  | [], _ => none
  | e :: rest, p => if e.1 = p then some e.2 else envGet rest p

/-- Overwrite (or create) a path in the store. -/
def envSet (env : FileEnv) (p c : String) : FileEnv :=
  match env with
  | [] => [(p, c)]
  | e :: rest => if e.1 = p then (p, c) :: rest else e :: envSet rest p c

/-- Remove a path from the store. -/
def envDel : FileEnv → String → FileEnv
  | [], _ => []
  | e :: rest, p => if e.1 = p then envDel rest p else e :: envDel rest p

/-- Effect of one operation on the store. -/
def applyOp (env : FileEnv) : FsOp → FileEnv
  | .write p c => envSet env p c
  | .rename src dst => envDel (envSet env dst ((envGet env src).getD "")) src

/-- All strict prefixes of a string: the partial contents a stream
write passes through. -/
def strictPrefixes (c : String) : List String :=
  (List.range c.data.length).map (fun k => ⟨c.data.take k⟩)

/-- What a concurrent reader of `real` can observe while one operation
executes: during a plain write to `real` itself, any strict prefix of
the new content; during any other operation, the unchanged current
content (`rename` is atomic). -/
def opMidStates (env : FileEnv) (real : String) : FsOp → List (Option String)
  | .write p c => if p = real then (strictPrefixes c).map some else [envGet env real]
  | .rename _ _ => [envGet env real]

/-- Every content of `real` observable before, during and after a
sequence of save operations. -/
def observable (env : FileEnv) (real : String) : List FsOp → List (Option String)
  | [] => [envGet env real]
  | op :: ops => (envGet env real :: opMidStates env real op) ++ observable (applyOp env op) real ops

/-- `ProgressTracker.save`: dump the document to the `.tmp` sibling,
then atomically replace the real path. -/
def progressTrackerSaveOps (progressFile doc : String) : List FsOp :=
  [.write (pyWithSuffix progressFile ".tmp") doc,
   .rename (pyWithSuffix progressFile ".tmp") progressFile]

/-- `SimpleTracker._save`: dump the document directly to the tracking
file. -/
def simpleTrackerSaveOps (trackingFile doc : String) : List FsOp :=
  [.write trackingFile doc]

/-! ## The archive inspectors

An archive's observable behaviour is oracle data: `none` models a
container that cannot be opened (the `rarfile` constructor raising),
`some` carries the member listing. -/

/-- A member record as seen by `RarFile.infolist()`. -/
structure MemberV1 where
  filename : String
  isDir : Bool
deriving Repr, DecidableEq

/-- `NestedRARProcessor._check_nested_rar`: enumerate non-directory
members and classify by extension; when the archive cannot be opened
the exception is caught and `(False, [])` is returned. -/
def checkNestedRar (inspect : Option (List MemberV1)) : Bool × List String :=
  match inspect with
  | none => (false, [])
  | some ms =>
    let inner := (ms.filter (fun m => !m.isDir && hasRarExt m.filename)).map (·.filename)
    (inner.length > 0, inner)

/-- `NestedRARProcessorV2._is_nested_rar`: the same check over
`namelist()` (every member name, directories included); open failure is
caught and `(False, 0)` returned. -/
def isNestedRarV2 (inspect : Option (List String)) : Bool × Nat :=
  match inspect with
  | none => (false, 0)
  | some names =>
    let inner := names.filter hasRarExt
    (inner.length > 0, inner.length)

/-! ## The V1 per-file pipeline (`nested_rar_processor.py`) -/

/-- Oracle description of one source archive as the V1 processor
touches it: the `infolist` used by the nested check, the outcome of
extracting the archive itself, and the outcome of extracting each inner
archive found in the outer workspace. -/
structure ArchiveV1 where
  path : String
  inspect : Option (List MemberV1)
  extractAll : Except String (List RelPath)
  innerExtract : RelPath → Except String (List RelPath)

/-- `ProcessResult` of the V1 processor (metadata-free fields). -/
structure V1Result where
  original_path : String
  output_files : List AbsPath
  success : Bool
  error : Option String := none
  files_created : Nat := 0
deriving Repr, DecidableEq

/-- The inner loop of `_process_nested_rar`: each inner archive is
extracted into its own sub-workspace and packed; a failure of one inner
archive is caught inside the loop, logged, and the loop continues.  The
output path is appended whenever `_create_cbz_from_directory` returns
(it returns `None` even when it found no images and wrote nothing). -/
def processInnersV1 (arc : ArchiveV1) (tempRoot outDir : AbsPath) :
    Nat → List RelPath → FS → List AbsPath → List AbsPath × FS
  | _, [], fs, outs => (outs, fs)
  | idx, inner :: rest, fs, outs =>
    match arc.innerExtract inner with
    | .error _ => processInnersV1 arc tempRoot outDir (idx + 1) rest fs outs
    | .ok iws =>
      let innerDir := tempRoot ++ ["inner", "rar_" ++ toString idx]
      let fs := fs ++ iws.map (fun p => innerDir ++ p)
      let cbzName := cleanAndGenerateCbzNameV1 (lastComp inner) (pyName arc.path)
      let outPath := outDir ++ [cbzName]
      let fs :=
        match createCbzV1 iws with
        | some _ => fs ++ [outPath]
        | none => fs
      processInnersV1 arc tempRoot outDir (idx + 1) rest fs (outs ++ [outPath])

/-- `NestedRARProcessor._process_nested_rar`. -/
def processNestedRarV1 (arc : ArchiveV1) (tempRoot outDir : AbsPath) (fs : FS) :
    Except String (List AbsPath) × FS :=
  match arc.extractAll with
  | .error e => (.error e, fs)
  | .ok ws =>
    let fs := fs ++ ws.map (fun p => tempRoot ++ ["outer"] ++ p)
    let inners := ws.filter hasRarExtPath
    let step := processInnersV1 arc tempRoot outDir 1 inners fs []
    (.ok step.1, step.2)

/-- `NestedRARProcessor._process_single_rar` (flat conversion): the
output path is returned unconditionally, whether or not the packer
found any images and wrote a container. -/
def processSingleRarV1 (arc : ArchiveV1) (tempRoot outDir : AbsPath) (fs : FS) :
    Except String (List AbsPath) × FS :=
  match arc.extractAll with
  | .error e => (.error e, fs)
  | .ok ws =>
    let fs := fs ++ ws.map (fun p => tempRoot ++ ["extract"] ++ p)
    let cbzName := cleanAndGenerateCbzNameV1 (pyName arc.path) (pyName arc.path)
    let outPath := outDir ++ [cbzName]
    let fs :=
      match createCbzV1 ws with
      | some _ => fs ++ [outPath]
      | none => fs
    (.ok [outPath], fs)

/-- Outcome of `NestedRARProcessor.process_rar_file`: the returned
result, the tracker document, and the filesystem after the `finally`
cleanup. -/
structure V1Outcome where
  result : V1Result
  tracker : ProgressData
  fs : FS
deriving Repr, DecidableEq

/-- `NestedRARProcessor.process_rar_file`: mark the file processing,
branch on the (exception-swallowing) nested check, convert, remove the
temporary workspace in the `finally` block, and record completion or
failure — completion is recorded whenever no exception escaped,
whatever the output list contains. -/
def processRarFileV1 (arc : ArchiveV1) (tempRoot outDir : AbsPath)
    (d : ProgressData) (now : String) (fs : FS) : V1Outcome :=
  let d := d.startProcessing arc.path now
  let nested := (checkNestedRar arc.inspect).1
  let step :=
    if nested then processNestedRarV1 arc tempRoot outDir fs
    else processSingleRarV1 arc tempRoot outDir fs
  match step.1 with
  | .ok outs =>
    { result :=
        { original_path := arc.path, output_files := outs, success := true
          files_created := outs.length }
      tracker := d.markCompleted arc.path outs now
      fs := rmtree tempRoot step.2 }
  | .error e =>
    { result :=
        { original_path := arc.path, output_files := [], success := false
          error := some ("处理失败: " ++ e) }
      tracker := d.markFailed arc.path ("处理失败: " ++ e) now
      fs := rmtree tempRoot step.2 }

/-! ## The V2 per-file pipeline (`nested_rar_processor_v2.py`) -/

/-- Oracle description of one source archive as the V2 processor
touches it (metadata lookup disabled, as with `--no-metadata`). -/
structure ArchiveV2 where
  path : String
  inspect : Option (List String)
  extractAll : Except String (List RelPath)
  innerExtract : RelPath → Except String (List RelPath)

/-- `ProcessResult` of the V2 processor (metadata fields omitted). -/
structure V2Result where
  original_path : String
  series_name : String
  output_files : List AbsPath
  success : Bool
  error : Option String := none
deriving Repr, DecidableEq

/-- The container name V2 gives an inner archive's conversion: the
extracted volume number when one was found and is non-zero (Python
truthiness), else the positional index. -/
def cbzNameInnerV2 (series innerName : String) (idx : Nat) : String :=
  match extractVolumeNumber innerName with
  | some n =>
    if n ≠ 0 then series ++ " v" ++ pad2 n ++ ".cbz"
    else series ++ " " ++ pad2 idx ++ ".cbz"
  | none => series ++ " " ++ pad2 idx ++ ".cbz"

/-- The container name V2 gives a flat archive's conversion. -/
def cbzNameFlatV2 (series fileName : String) : String :=
  match extractVolumeNumber fileName with
  | some n => if n ≠ 0 then series ++ " v" ++ pad2 n ++ ".cbz" else series ++ ".cbz"
  | none => series ++ ".cbz"

/-- The inner loop of V2's `_process_single_rar` in the nested branch:
inner archives in sorted order, each extracted into `inner_{idx}`,
packed, appended to the outputs only when the packer actually created a
container, and its sub-workspace removed immediately.  An inner
extraction failure is NOT caught here: it aborts the whole file. -/
def processInnersV2 (arc : ArchiveV2) (tempRoot outDir : AbsPath) (series : String) :
    Nat → List RelPath → FS → List AbsPath → Except String (List AbsPath) × FS
  | _, [], fs, outs => (.ok outs, fs)
  | idx, inner :: rest, fs, outs =>
    match arc.innerExtract inner with
    | .error e => (.error e, fs)
    | .ok iws =>
      let innerDir := tempRoot ++ ["inner_" ++ toString idx]
      let fs := fs ++ iws.map (fun p => innerDir ++ p)
      let outPath := outDir ++ [sanitizeIllegal (cbzNameInnerV2 series (lastComp inner) idx)]
      match createCbzV2 iws with
      | some _ =>
        processInnersV2 arc tempRoot outDir series (idx + 1) rest
          (rmtree innerDir (fs ++ [outPath])) (outs ++ [outPath])
      | none =>
        processInnersV2 arc tempRoot outDir series (idx + 1) rest
          (rmtree innerDir fs) outs

/-- The body of V2's `_process_single_rar` (inside its `try`). -/
def processSingleRarV2Body (arc : ArchiveV2) (tempRoot outDir : AbsPath) (fs : FS) :
    Except String (List AbsPath) × FS :=
  let nested := (isNestedRarV2 arc.inspect).1
  if nested then
    match arc.extractAll with
    | .error e => (.error e, fs)
    | .ok ws =>
      let fs := fs ++ ws.map (fun p => tempRoot ++ ["outer"] ++ p)
      let inners := List.insertionSort pathLeP (ws.filter hasRarExtPath)
      let series := cleanSeriesName (pyName arc.path)
      processInnersV2 arc tempRoot outDir series 1 inners fs []
  else
    match arc.extractAll with
    | .error e => (.error e, fs)
    | .ok ws =>
      let fs := fs ++ ws.map (fun p => tempRoot ++ ["extract"] ++ p)
      let series := cleanSeriesName (pyName arc.path)
      let outPath := outDir ++ [sanitizeIllegal (cbzNameFlatV2 series (pyName arc.path))]
      match createCbzV2 ws with
      | some _ => (.ok [outPath], fs ++ [outPath])
      | none => (.ok [], fs)

/-- `NestedRARProcessorV2._process_single_rar`: the body wrapped in
`try ... finally: shutil.rmtree(temp_root)` — the workspace is removed
on success, on exception and on cancellation; the exception itself
still propagates. -/
def processSingleRarV2 (arc : ArchiveV2) (tempRoot outDir : AbsPath) (fs : FS) :
    Except String (List AbsPath) × FS :=
  let step := processSingleRarV2Body arc tempRoot outDir fs
  (step.1, rmtree tempRoot step.2)

/-- `NestedRARProcessorV2.process_file`: run the conversion; succeed
exactly when it returned a non-empty output list (an empty list raises
`未生成任何输出文件`, caught by the same handler as every other
per-file exception and recorded as a failed result). -/
def processFileV2 (arc : ArchiveV2) (tempRoot outDir : AbsPath) (fs : FS) :
    V2Result × FS :=
  let series := cleanSeriesName (pyName arc.path)
  let step := processSingleRarV2 arc tempRoot outDir fs
  match step.1 with
  | .ok outs =>
    if outs.isEmpty then
      ({ original_path := arc.path, series_name := series, output_files := []
         success := false, error := some "未生成任何输出文件" }, step.2)
    else
      ({ original_path := arc.path, series_name := series, output_files := outs
         success := true }, step.2)
  | .error e =>
    ({ original_path := arc.path, series_name := series, output_files := []
       success := false, error := some e }, step.2)

/-- `NestedRARProcessorV2.process_batch`: skip files the minimal
tracker already records as completed, otherwise process and, on
success, mark completed; failures are counted and the loop continues
with the next file. -/
def processBatchV2 (tempRoot outDir : AbsPath) :
    List ArchiveV2 → SimpleState → FS → List V2Result × SimpleState × FS
  | [], st, fs => ([], st, fs)
  | arc :: rest, st, fs =>
    if simpleIsCompleted st arc.path then
      processBatchV2 tempRoot outDir rest st fs
    else
      let pr := processFileV2 arc tempRoot outDir fs
      let st2 := if pr.1.success then simpleMarkCompleted st arc.path else st
      let recres := processBatchV2 tempRoot outDir rest st2 pr.2
      (pr.1 :: recres.1, recres.2.1, recres.2.2)

/-! ## Concrete scenarios

Oracle descriptions of individual archives, used to evaluate the
pipelines at specific inputs. -/

/-- A nested archive whose first inner archive fails to extract while
the second converts normally (V1 processor). -/
def arcPartialInner : ArchiveV1 :=
  { path := "d/x.rar"
    inspect := some [⟨"v1.rar", false⟩, ⟨"v2.rar", false⟩]
    extractAll := .ok [[("v1.rar" : String)], [("v2.rar" : String)]]
    innerExtract := fun p =>
      if p = [("v1.rar" : String)] then .error "bad archive"
      else .ok [[("p.jpg" : String)]] }

/-- A nested archive whose only inner archive fails to extract (V1
processor). -/
def arcAllInnerFail : ArchiveV1 :=
  { path := "d/x.rar"
    inspect := some [⟨"v1.rar", false⟩]
    extractAll := .ok [[("v1.rar" : String)]]
    innerExtract := fun _ => .error "bad archive" }

/-- A flat archive containing no image files (V1 processor). -/
def arcFlatNoImagesV1 : ArchiveV1 :=
  { path := "y.rar"
    inspect := some [⟨"p.txt", false⟩]
    extractAll := .ok [[("p.txt" : String)]]
    innerExtract := fun _ => .error "unused" }

/-- A flat archive containing no image files (V2 processor). -/
def arcFlatNoImagesV2 : ArchiveV2 :=
  { path := "z.rar"
    inspect := some ["p.txt"]
    extractAll := .ok [[("p.txt" : String)]]
    innerExtract := fun _ => .error "unused" }

/-- A well-formed nested archive with two inner archives of one image
each (V2 processor). -/
def arcNestedGoodV2 : ArchiveV2 :=
  { path := "a.rar"
    inspect := some ["inner_01.rar", "inner_02.rar"]
    extractAll := .ok [[("inner_01.rar" : String)], [("inner_02.rar" : String)]]
    innerExtract := fun p => .ok [[lastComp p ++ ".jpg"]] }

/-- An archive that cannot be opened at all: inspection fails and so
does extraction (V1 processor). -/
def arcUnopenableV1 : ArchiveV1 :=
  { path := "b.rar"
    inspect := none
    extractAll := .error "open failed"
    innerExtract := fun _ => .error "open failed" }

/-- A flat archive converting cleanly to one container (V2 processor). -/
def arcFlatGoodV2 : ArchiveV2 :=
  { path := "g.rar"
    inspect := some ["01.jpg"]
    extractAll := .ok [[("01.jpg" : String)]]
    innerExtract := fun _ => .error "unused" }

/-! ## Properties of the embedded orderings -/

theorem char_eq_of_toNat_eq {a b : Char} (h : a.toNat = b.toNat) : a = b := by
  cases a; cases b; congr 1; exact UInt32.toNat.inj h

theorem str_eq_of_data_eq {s t : String} (h : s.data = t.data) : s = t := by
  cases s; cases t; exact congrArg String.mk h

theorem charListLtB_irrefl : ∀ xs, charListLtB xs xs = false
  | [] => rfl
  | a :: as => by simp [charListLtB, charListLtB_irrefl as]

theorem charListLtB_trans :
    ∀ xs ys zs, charListLtB xs ys = true → charListLtB ys zs = true →
      charListLtB xs zs = true
  | [], [], _, h1, _ => by simp [charListLtB] at h1
  | [], _ :: _, [], _, h2 => by simp [charListLtB] at h2
  | [], _ :: _, _ :: _, _, _ => rfl
  | _ :: _, [], _, h1, _ => by simp [charListLtB] at h1
  | _ :: _, _ :: _, [], _, h2 => by simp [charListLtB] at h2
  | a :: as, b :: bs, c :: cs, h1, h2 => by
    simp only [charListLtB, Bool.or_eq_true, Bool.and_eq_true, decide_eq_true_eq] at h1 h2 ⊢
    rcases h1 with h1 | ⟨rfl, h1⟩
    · rcases h2 with h2 | ⟨rfl, h2⟩
      · exact Or.inl (Nat.lt_trans h1 h2)
      · exact Or.inl h1
    · rcases h2 with h2 | ⟨rfl, h2⟩
      · exact Or.inl h2
      · exact Or.inr ⟨rfl, charListLtB_trans as bs cs h1 h2⟩

theorem charListLtB_asymm {xs ys} (h : charListLtB xs ys = true) :
    charListLtB ys xs = false := by
  cases h2 : charListLtB ys xs
  · rfl
  · have := charListLtB_trans xs ys xs h h2
    rw [charListLtB_irrefl] at this
    exact absurd this (by simp)

theorem charListLtB_connected :
    ∀ xs ys, charListLtB xs ys = false → charListLtB ys xs = false → xs = ys
  | [], [], _, _ => rfl
  | [], _ :: _, h1, _ => by simp [charListLtB] at h1
  | _ :: _, [], _, h2 => by simp [charListLtB] at h2
  | a :: as, b :: bs, h1, h2 => by
    simp only [charListLtB, Bool.or_eq_false_iff, Bool.and_eq_false_iff,
      decide_eq_false_iff_not] at h1 h2
    have hab : a = b :=
      char_eq_of_toNat_eq (Nat.le_antisymm (Nat.not_lt.mp h2.1) (Nat.not_lt.mp h1.1))
    subst hab
    rcases h1.2 with h | h
    · exact absurd rfl h
    · rcases h2.2 with h' | h'
      · exact absurd rfl h'
      · rw [charListLtB_connected as bs h h']

theorem strLtB_trans {a b c : String} (h1 : strLtB a b = true) (h2 : strLtB b c = true) :
    strLtB a c = true :=
  charListLtB_trans a.data b.data c.data h1 h2

theorem strLtB_asymm {a b : String} (h : strLtB a b = true) : strLtB b a = false :=
  charListLtB_asymm h

theorem strLtB_connected {a b : String} (h1 : strLtB a b = false)
    (h2 : strLtB b a = false) : a = b :=
  str_eq_of_data_eq (charListLtB_connected a.data b.data h1 h2)

theorem strLeB_total (a b : String) : strLeB a b = true ∨ strLeB b a = true := by
  unfold strLeB
  cases h : strLtB b a
  · exact Or.inl rfl
  · rw [strLtB_asymm h]; exact Or.inr rfl

theorem strLeB_trans {a b c : String} (h1 : strLeB a b = true) (h2 : strLeB b c = true) :
    strLeB a c = true := by
  unfold strLeB at h1 h2 ⊢
  rw [Bool.not_eq_true'] at h1 h2
  cases hca : strLtB c a
  · rfl
  · exfalso
    cases hbc : strLtB b c
    · have hcb : c = b := strLtB_connected h2 hbc
      subst hcb
      rw [h1] at hca
      simp at hca
    · have hba : strLtB b a = true := strLtB_trans hbc hca
      rw [h1] at hba
      simp at hba

theorem pathLtB_irrefl : ∀ p, pathLtB p p = false
  | [] => rfl
  | a :: as => by simp [pathLtB, charListLtB_irrefl, strLtB, pathLtB_irrefl as]

theorem pathLtB_trans :
    ∀ p q r, pathLtB p q = true → pathLtB q r = true → pathLtB p r = true
  | [], [], _, h1, _ => by simp [pathLtB] at h1
  | [], _ :: _, [], _, h2 => by simp [pathLtB] at h2
  | [], _ :: _, _ :: _, _, _ => rfl
  | _ :: _, [], _, h1, _ => by simp [pathLtB] at h1
  | _ :: _, _ :: _, [], _, h2 => by simp [pathLtB] at h2
  | a :: as, b :: bs, c :: cs, h1, h2 => by
    simp only [pathLtB, Bool.or_eq_true, Bool.and_eq_true, decide_eq_true_eq] at h1 h2 ⊢
    rcases h1 with h1 | ⟨rfl, h1⟩
    · rcases h2 with h2 | ⟨rfl, h2⟩
      · exact Or.inl (strLtB_trans h1 h2)
      · exact Or.inl h1
    · rcases h2 with h2 | ⟨rfl, h2⟩
      · exact Or.inl h2
      · exact Or.inr ⟨rfl, pathLtB_trans as bs cs h1 h2⟩

theorem pathLtB_asymm {p q} (h : pathLtB p q = true) : pathLtB q p = false := by
  cases h2 : pathLtB q p
  · rfl
  · have := pathLtB_trans p q p h h2
    rw [pathLtB_irrefl] at this
    exact absurd this (by simp)

theorem pathLtB_connected :
    ∀ p q, pathLtB p q = false → pathLtB q p = false → p = q
  | [], [], _, _ => rfl
  | [], _ :: _, h1, _ => by simp [pathLtB] at h1
  | _ :: _, [], _, h2 => by simp [pathLtB] at h2
  | a :: as, b :: bs, h1, h2 => by
    simp only [pathLtB, Bool.or_eq_false_iff, Bool.and_eq_false_iff,
      decide_eq_false_iff_not] at h1 h2
    have hab : a = b := strLtB_connected h1.1 h2.1
    subst hab
    rcases h1.2 with h | h
    · exact absurd rfl h
    · rcases h2.2 with h' | h'
      · exact absurd rfl h'
      · rw [pathLtB_connected as bs h h']

theorem pathLeB_total (p q : List String) : pathLeB p q = true ∨ pathLeB q p = true := by
  unfold pathLeB
  cases h : pathLtB q p
  · exact Or.inl rfl
  · rw [pathLtB_asymm h]; exact Or.inr rfl

theorem pathLeB_trans {p q r : List String} (h1 : pathLeB p q = true)
    (h2 : pathLeB q r = true) : pathLeB p r = true := by
  unfold pathLeB at h1 h2 ⊢
  rw [Bool.not_eq_true'] at h1 h2
  cases hrp : pathLtB r p
  · rfl
  · exfalso
    cases hqr : pathLtB q r
    · have hrq : r = q := pathLtB_connected r q h2 hqr
      subst hrq
      rw [h1] at hrp
      simp at hrp
    · have hqp : pathLtB q p = true := pathLtB_trans q r p hqr hrp
      rw [h1] at hqp
      simp at hqp

instance : IsTotal RelPath pathLeP := ⟨fun a b => pathLeB_total a b⟩

instance : IsTrans RelPath pathLeP := ⟨fun _ _ _ h h' => pathLeB_trans h h'⟩

instance : IsTotal RelPath nameLeP := ⟨fun a b => strLeB_total (lastComp a) (lastComp b)⟩

instance : IsTrans RelPath nameLeP := ⟨fun _ _ _ h h' => strLeB_trans h h'⟩

/-! ## Filesystem helper lemmas -/

theorem isPrefixOf_append_self (l t : List String) : l.isPrefixOf (l ++ t) = true := by
  rw [List.isPrefixOf_iff_prefix]
  exact List.prefix_append l t

theorem isPrefixOf_trans {a b c : List String} (h1 : a.isPrefixOf b = true)
    (h2 : b.isPrefixOf c = true) : a.isPrefixOf c = true := by
  rw [List.isPrefixOf_iff_prefix] at h1 h2 ⊢
  exact h1.trans h2

theorem not_isPrefixOf_of_mem_rmtree {dir : AbsPath} {fs : FS} {p : AbsPath}
    (h : p ∈ rmtree dir fs) : dir.isPrefixOf p = false := by
  have h2 := (List.mem_filter.mp h).2
  simpa using h2

theorem mem_of_mem_rmtree {dir : AbsPath} {fs : FS} {p : AbsPath}
    (h : p ∈ rmtree dir fs) : p ∈ fs := (List.mem_filter.mp h).1

theorem mem_rmtree_of_mem {dir : AbsPath} {fs : FS} {p : AbsPath}
    (h : p ∈ fs) (hp : dir.isPrefixOf p = false) : p ∈ rmtree dir fs :=
  List.mem_filter.mpr ⟨h, by simp [hp]⟩

/-! ## Claim C5 -/

/-- Claim C5, counterexample: normalizing
`【青年コミック】神兵玄奇 第03巻` does NOT yield series name
`神兵玄奇` — neither processor removes the volume-marker span from the
series name.  V2's `_clean_series_name` keeps `第03巻`, and V1's
generated container name likewise embeds it, so the name the claim
predicts is never produced. -/
theorem c5_counterexample :
    cleanSeriesName "【青年コミック】神兵玄奇 第03巻" ≠ "神兵玄奇" ∧
    cleanAndGenerateCbzNameV1 "【青年コミック】神兵玄奇 第03巻"
      "【青年コミック】神兵玄奇 第03巻" ≠ "神兵玄奇 v03.cbz" := by
  exact ⟨by decide, by decide⟩

/-- Claim C5, amended: normalizing `【青年コミック】神兵玄奇 第03巻`
deterministically yields series name `神兵玄奇 第03巻` (the bracket tag
removed but the volume-marker span retained) and volume number 3; the
V1 name generator accordingly produces `神兵玄奇 第03巻 v03.cbz`.
Determinism is inherent: the embedded normalizer is a pure function of
its input. -/
theorem c5_amended_normalization :
    cleanSeriesName "【青年コミック】神兵玄奇 第03巻" = "神兵玄奇 第03巻" ∧
    extractVolumeNumber "【青年コミック】神兵玄奇 第03巻" = some 3 ∧
    cleanAndGenerateCbzNameV1 "【青年コミック】神兵玄奇 第03巻"
      "【青年コミック】神兵玄奇 第03巻" = "神兵玄奇 第03巻 v03.cbz" := by
  exact ⟨by decide, by decide, by decide⟩

/-! ## Claim C6 -/

/-- Claim C6: volume extraction tries the frozen pattern list in order
with first match winning: on `ABC 第03巻 Vol.5` the explicit
source-language marker yields 3 (not 5); whenever the `第N巻` pattern
matches anywhere in the stem its value is returned regardless of the
later patterns; and the `Vol.` pattern is consulted only after both
source-language patterns failed. -/
theorem c6_volume_pattern_precedence :
    extractVolumeNumber "ABC 第03巻 Vol.5" = some 3 ∧
    extractVolumeNumber "ABC 第03巻 Vol.5" ≠ some 5 ∧
    (∀ (s : String) (n : Nat),
      searchFirst (mDai '巻') (pyStemName s).data = some n →
      extractVolumeNumber s = some n) ∧
    (∀ (s : String) (n : Nat),
      searchFirst (mDai '巻') (pyStemName s).data = none →
      searchFirst (mDai '卷') (pyStemName s).data = none →
      searchFirst mVol (pyStemName s).data = some n →
      extractVolumeNumber s = some n) := by
  refine ⟨by decide, by decide, ?_, ?_⟩
  · intro s n h
    simp [extractVolumeNumber, volumeMatchers, h]
  · intro s n h1 h2 h3
    simp [extractVolumeNumber, volumeMatchers, h1, h2, h3]

/-- Witness for C6: the precedence rule applied at a concrete input. -/
theorem c6_witness : extractVolumeNumber "第07巻" = some 7 :=
  c6_volume_pattern_precedence.2.2.1 "第07巻" 7 (by decide)

/-! ## Claim C7 -/

/-- Claim C7, counterexample: when the container cannot be opened,
neither inspector fails with an error — both catch the exception and
return exactly the flat classification an openable archive with no
archive-typed members would get. -/
theorem c7_counterexample :
    checkNestedRar none = (false, []) ∧
    checkNestedRar none = checkNestedRar (some []) ∧
    isNestedRarV2 none = (false, 0) ∧
    isNestedRarV2 none = isNestedRarV2 (some ["01.jpg"]) := by
  exact ⟨rfl, rfl, rfl, by decide⟩

/-- Claim C7, amended: the V1 inspector classifies an openable archive
as nested iff some non-directory member has an archive extension (V2
applies the extension test to every member name); an unopenable
container is classified flat, `(False, empty)`, instead of raising —
the file is still marked failed, because the flat conversion path then
hits the same open failure, which the per-file handler records. -/
theorem c7_amended_inspector :
    (∀ ms : List MemberV1, (checkNestedRar (some ms)).1 = true ↔
      ∃ m ∈ ms, m.isDir = false ∧ hasRarExt m.filename = true) ∧
    (∀ names : List String, (isNestedRarV2 (some names)).1 = true ↔
      ∃ n ∈ names, hasRarExt n = true) ∧
    (∀ (arc : ArchiveV1) (tempRoot outDir : AbsPath) (d : ProgressData)
        (now : String) (fs : FS) (e : String),
      arc.inspect = none → arc.extractAll = .error e →
      (processRarFileV1 arc tempRoot outDir d now fs).result.success = false ∧
      (processRarFileV1 arc tempRoot outDir d now fs).result.error =
        some ("处理失败: " ++ e) ∧
      (processRarFileV1 arc tempRoot outDir d now fs).tracker =
        (d.startProcessing arc.path now).markFailed arc.path ("处理失败: " ++ e) now) := by
  refine ⟨?_, ?_, ?_⟩
  · intro ms
    constructor
    · intro h
      have h1 : ms.filter (fun m => !m.isDir && hasRarExt m.filename) ≠ [] := by
        intro hnil
        simp [checkNestedRar, hnil] at h
      obtain ⟨m, hm⟩ := List.exists_mem_of_ne_nil _ h1
      have hmf := List.mem_filter.mp hm
      have hand := hmf.2
      rw [Bool.and_eq_true] at hand
      exact ⟨m, hmf.1, by simpa using hand.1, hand.2⟩
    · rintro ⟨m, hm, hdir, hext⟩
      have hmem : m ∈ ms.filter (fun m => !m.isDir && hasRarExt m.filename) :=
        List.mem_filter.mpr ⟨hm, by simp [hdir, hext]⟩
      simp only [checkNestedRar, decide_eq_true_eq, List.length_map]
      exact List.length_pos.mpr (List.ne_nil_of_mem hmem)
  · intro names
    constructor
    · intro h
      have h1 : names.filter hasRarExt ≠ [] := by
        intro hnil
        simp [isNestedRarV2, hnil] at h
      obtain ⟨n, hn⟩ := List.exists_mem_of_ne_nil _ h1
      have hnf := List.mem_filter.mp hn
      exact ⟨n, hnf.1, hnf.2⟩
    · rintro ⟨n, hn, hext⟩
      have hmem : n ∈ names.filter hasRarExt := List.mem_filter.mpr ⟨hn, hext⟩
      simp only [isNestedRarV2, decide_eq_true_eq]
      exact List.length_pos.mpr (List.ne_nil_of_mem hmem)
  · intro arc tempRoot outDir d now fs e h1 h2
    refine ⟨?_, ?_, ?_⟩ <;>
      simp [processRarFileV1, processSingleRarV1, checkNestedRar, h1, h2]

/-- Witness for C7's amended theorem: the flat-then-fail path evaluated
on a concrete unopenable archive. -/
theorem c7_witness :
    (processRarFileV1 arcUnopenableV1 ["tmp"] ["out"]
        (ProgressData.addFile {} "b.rar") "t0" []).result.success = false ∧
    (processRarFileV1 arcUnopenableV1 ["tmp"] ["out"]
        (ProgressData.addFile {} "b.rar") "t0" []).result.error =
      some ("处理失败: " ++ "open failed") ∧
    (processRarFileV1 arcUnopenableV1 ["tmp"] ["out"]
        (ProgressData.addFile {} "b.rar") "t0" []).tracker =
      ((ProgressData.addFile {} "b.rar").startProcessing arcUnopenableV1.path
        "t0").markFailed arcUnopenableV1.path ("处理失败: " ++ "open failed") "t0" :=
  c7_amended_inspector.2.2 arcUnopenableV1 ["tmp"] ["out"]
    (ProgressData.addFile {} "b.rar") "t0" [] "open failed" rfl rfl

/-! ## Claim C10 -/

theorem simpleTracker_foldl_mem (ps : List String) :
    ∀ (st : SimpleState) (q : String),
      simpleIsCompleted (List.foldl simpleMarkCompleted st ps) q = true ↔
        (pyName q ∈ ps.map pyName ∨ simpleIsCompleted st q = true) := by
  induction ps with
  | nil =>
    intro st q
    simp
  | cons p ps ih =>
    intro st q
    rw [List.foldl_cons, ih, List.map_cons]
    have hc : ∀ (l : List String) (a : String), l.contains a = true ↔ a ∈ l :=
      fun l a => List.elem_iff
    constructor
    · rintro (h | h)
      · exact Or.inl (List.mem_cons_of_mem _ h)
      · rw [simpleIsCompleted, simpleMarkCompleted, hc] at h
        rcases List.mem_cons.mp h with h | h
        · exact Or.inl (by rw [h]; exact List.mem_cons_self _ _)
        · exact Or.inr ((hc _ _).mpr h)
    · rintro (h | h)
      · rcases List.mem_cons.mp h with h | h
        · refine Or.inr ?_
          rw [simpleIsCompleted, simpleMarkCompleted, hc]
          exact List.mem_cons.mpr (Or.inl h)
        · exact Or.inl h
      · refine Or.inr ?_
        rw [simpleIsCompleted, simpleMarkCompleted, hc]
        exact List.mem_cons_of_mem _ ((hc _ _).mp h)

/-- Claim C10: the minimal tracker keys completion solely by base
filename — after any sequence of `mark_completed` calls starting from
an empty store, `is_completed(q)` holds exactly when the base filename
of `q` equals that of some marked path; in particular a path in a
different directory with the same base name reads as completed, and a
never-marked base name does not. -/
theorem c10_basename_keyed_completion :
    (∀ (ps : List String) (q : String),
      simpleIsCompleted (List.foldl simpleMarkCompleted [] ps) q = true ↔
        pyName q ∈ ps.map pyName) ∧
    simpleIsCompleted (simpleMarkCompleted [] "/a/x.rar") "/b/x.rar" = true ∧
    simpleIsCompleted (simpleMarkCompleted [] "/a/x.rar") "/a/y.rar" = false := by
  refine ⟨?_, by decide, by decide⟩
  intro ps q
  rw [simpleTracker_foldl_mem]
  simp [simpleIsCompleted]

/-! ## Claim C2 -/

theorem envGet_envSet_self :
    ∀ (env : FileEnv) (p c : String), envGet (envSet env p c) p = some c
  | [], p, c => by simp [envSet, envGet]
  | e :: rest, p, c => by
    by_cases h : e.1 = p <;>
      simp [envSet, envGet, h, envGet_envSet_self rest p c]

theorem envGet_envSet_ne :
    ∀ (env : FileEnv) (p c q : String), q ≠ p →
      envGet (envSet env p c) q = envGet env q
  | [], p, c, q, h => by simp [envSet, envGet, Ne.symm h]
  | e :: rest, p, c, q, h => by
    by_cases h1 : e.1 = p
    · have h2 : e.1 ≠ q := by rw [h1]; exact Ne.symm h
      simp [envSet, envGet, h1, h2, Ne.symm h]
    · by_cases h2 : e.1 = q
      · simp [envSet, envGet, h1, h2, h]
      · simp [envSet, envGet, h1, h2, h, envGet_envSet_ne rest p c q h]

theorem envGet_envDel_ne :
    ∀ (env : FileEnv) (p q : String), q ≠ p →
      envGet (envDel env p) q = envGet env q
  | [], _, _, _ => rfl
  | e :: rest, p, q, h => by
    by_cases h1 : e.1 = p
    · have h2 : e.1 ≠ q := by rw [h1]; exact Ne.symm h
      simp [envDel, envGet, h1, h2, Ne.symm h, envGet_envDel_ne rest p q h]
    · by_cases h2 : e.1 = q
      · simp [envDel, envGet, h1, h2, h]
      · simp [envDel, envGet, h1, h2, h, envGet_envDel_ne rest p q h]

/-- Claim C2, counterexample: the minimal tracker's `_save` writes the
JSON directly to the tracking file, so a reader racing the save can
observe a strict prefix of the new document — `NEW` is neither the old
content nor the finished document. -/
theorem c2_counterexample :
    some "NEW" ∈ observable [(".progress/completed.json", "OLDCONTENT")]
        ".progress/completed.json"
        (simpleTrackerSaveOps ".progress/completed.json" "NEWDOC") ∧
    ("NEW" : String) ≠ "OLDCONTENT" ∧ ("NEW" : String) ≠ "NEWDOC" := by
  exact ⟨by decide, by decide, by decide⟩

/-- Claim C2, amended: only the detailed tracker's `save` follows the
temp-file-plus-atomic-rename discipline — whatever the prior store
contents and the document, every content of the progress file
observable before, during or after its save is either the old content
or the complete new document.  (The minimal tracker writes in place;
see the counterexample.) -/
theorem c2_amended_atomic_save (env : FileEnv) (doc : String) (o : Option String)
    (ho : o ∈ observable env ".progress/processing_progress.json"
        (progressTrackerSaveOps ".progress/processing_progress.json" doc)) :
    o = envGet env ".progress/processing_progress.json" ∨ o = some doc := by
  have htmp : pyWithSuffix ".progress/processing_progress.json" ".tmp"
      = ".progress/processing_progress.tmp" := by decide
  have hne : (".progress/processing_progress.tmp" : String)
      ≠ ".progress/processing_progress.json" := by decide
  rw [progressTrackerSaveOps, htmp] at ho
  simp only [observable, opMidStates, applyOp, if_neg hne, List.cons_append,
    List.nil_append, List.mem_cons, List.mem_singleton] at ho
  have hg1 : envGet (envSet env ".progress/processing_progress.tmp" doc)
      ".progress/processing_progress.json"
      = envGet env ".progress/processing_progress.json" :=
    envGet_envSet_ne env _ doc _ (Ne.symm hne)
  have hgt : envGet (envSet env ".progress/processing_progress.tmp" doc)
      ".progress/processing_progress.tmp" = some doc :=
    envGet_envSet_self env _ doc
  have hg2 : envGet
      (envDel
        (envSet (envSet env ".progress/processing_progress.tmp" doc)
          ".progress/processing_progress.json"
          ((envGet (envSet env ".progress/processing_progress.tmp" doc)
            ".progress/processing_progress.tmp").getD ""))
        ".progress/processing_progress.tmp")
      ".progress/processing_progress.json" = some doc := by
    rw [envGet_envDel_ne _ _ _ (Ne.symm hne), envGet_envSet_self, hgt]
    rfl
  rcases ho with h | h | h | h | h | h
  · exact Or.inl h
  · exact Or.inl h
  · rw [hg1] at h
    exact Or.inl h
  · rw [hg1] at h
    exact Or.inl h
  · rw [hg2] at h
    exact Or.inr h
  · exact absurd h (List.not_mem_nil o)

/-- Witness for C2's amended theorem: the discipline evaluated over an
empty store. -/
theorem c2_witness :
    some "DOC" = envGet [] ".progress/processing_progress.json" ∨
      some "DOC" = some ("DOC" : String) :=
  c2_amended_atomic_save [] "DOC" (some "DOC") (by decide)

/-! ## Claim C9 -/

/-- Claim C9: on every exit path — success, per-file exception, or a
cancellation surfacing as an error — the temporary workspace of one
archive (outer and inner sub-workspaces included, all of which live
under the per-file temporary root) is recursively removed before
control returns to the batch loop: no file under the temporary root
survives V2's `_process_single_rar` or V1's `process_rar_file`. -/
theorem c9_workspace_released :
    (∀ (arc : ArchiveV2) (tempRoot outDir : AbsPath) (fs : FS) (p : AbsPath),
      p ∈ (processSingleRarV2 arc tempRoot outDir fs).2 →
      tempRoot.isPrefixOf p = false) ∧
    (∀ (arc : ArchiveV1) (tempRoot outDir : AbsPath) (d : ProgressData)
        (now : String) (fs : FS) (p : AbsPath),
      p ∈ (processRarFileV1 arc tempRoot outDir d now fs).fs →
      tempRoot.isPrefixOf p = false) := by
  constructor
  · intro arc tempRoot outDir fs p hp
    simp only [processSingleRarV2] at hp
    exact not_isPrefixOf_of_mem_rmtree hp
  · intro arc tempRoot outDir d now fs p hp
    simp only [processRarFileV1] at hp
    split at hp <;> exact not_isPrefixOf_of_mem_rmtree hp

/-- Witness for C9: cleanup evaluated on concrete archives, with a file
outside the workspace surviving. -/
theorem c9_witness :
    (["tmp"] : AbsPath).isPrefixOf ["keep"] = false ∧
    (["tmp2"] : AbsPath).isPrefixOf ["keep2"] = false :=
  ⟨c9_workspace_released.1 arcFlatGoodV2 ["tmp"] ["out"] [["keep"]] ["keep"]
      (by decide),
    c9_workspace_released.2 arcFlatNoImagesV1 ["tmp2"] ["out"]
      (ProgressData.addFile {} "y.rar") "t0" [["keep2"]] ["keep2"] (by decide)⟩

/-! ## Claim C4 -/

/-- Claim C4, counterexample: with images in different subdirectories
the V1 packer orders entries by base filename, not by entry name —
`b/1.jpg` is packed before `a/2.jpg` — and a file whose extension is
only case-insensitively (mixed-case `.Jpg`) in the supported set is
collected by neither packer. -/
theorem c4_counterexample :
    createCbzV1 [["b", "1.jpg"], ["a", "2.jpg"]] =
      some [["b", "1.jpg"], ["a", "2.jpg"]] ∧
    sortedByEntryName [["b", "1.jpg"], ["a", "2.jpg"]] = false ∧
    imageExtensions.contains (asciiLower (pySuffixOf "c.Jpg")) = true ∧
    createCbzV2 [["a.jpg"], ["c.Jpg"]] = some [["a.jpg"]] ∧
    createCbzV1 [["a.jpg"], ["c.Jpg"]] = some [["a.jpg"]] := by
  exact ⟨by decide, by decide, by decide, by decide, by decide⟩

/-- Claim C4, amended: on a workspace with at least one qualifying
image, each packer produces a container holding exactly the files
whose final component ends in a supported image extension written in
all-lowercase or all-uppercase form, each entry named by its
workspace-relative path; V2 orders the entries ascending by `pathlib`
path comparison (component-wise code-point order), while V1 orders
them ascending by base filename only. -/
theorem c4_amended_packing (ws : List RelPath)
    (h : ws.filter qualifiesImage ≠ []) :
    (createCbzV2 ws).isSome = true ∧
    (∀ es, createCbzV2 ws = some es →
      es.Perm (ws.filter qualifiesImage) ∧ List.Sorted pathLeP es ∧
      ∀ p, p ∈ es ↔ (p ∈ ws ∧ qualifiesImage p = true)) ∧
    (createCbzV1 ws).isSome = true ∧
    (∀ es, createCbzV1 ws = some es →
      es.Perm (ws.filter qualifiesImage) ∧ List.Sorted nameLeP es) := by
  have hne : (ws.filter qualifiesImage).isEmpty = false := by
    cases hfi : ws.filter qualifiesImage with
    | nil => exact absurd hfi h
    | cons a as => rfl
  refine ⟨?_, ?_, ?_, ?_⟩
  · simp [createCbzV2, hne]
  · intro es hes
    simp only [createCbzV2, hne, Bool.false_eq_true, if_false,
      Option.some.injEq] at hes
    subst hes
    refine ⟨List.perm_insertionSort _ _, List.sorted_insertionSort _ _, ?_⟩
    intro p
    rw [List.Perm.mem_iff (List.perm_insertionSort _ _)]
    exact List.mem_filter
  · simp [createCbzV1, hne]
  · intro es hes
    simp only [createCbzV1, hne, Bool.false_eq_true, if_false,
      Option.some.injEq] at hes
    subst hes
    exact ⟨List.perm_insertionSort _ _, List.sorted_insertionSort _ _⟩

/-- Witness for C4's amended theorem: the packers evaluated on a mixed
workspace. -/
theorem c4_witness :
    (createCbzV2 [["sub", "02.jpg"], ["n.txt"], ["01.JPG"]]).isSome = true :=
  (c4_amended_packing [["sub", "02.jpg"], ["n.txt"], ["01.JPG"]] (by decide)).1

/-! ## Claim C1 -/

theorem tempSub_not_prefix_of_out {tempRoot outDir : AbsPath} (sub : List String)
    (name : String)
    (hsep : ∀ n, tempRoot.isPrefixOf (outDir ++ [n]) = false) :
    (tempRoot ++ sub).isPrefixOf (outDir ++ [name]) = false := by
  cases hq : (tempRoot ++ sub).isPrefixOf (outDir ++ [name])
  · rfl
  · have h2 := isPrefixOf_trans (isPrefixOf_append_self tempRoot sub) hq
    rw [hsep name] at h2
    simp at h2

theorem processInnersV2_outputs (arc : ArchiveV2) (tempRoot outDir : AbsPath)
    (series : String)
    (hsep : ∀ n, tempRoot.isPrefixOf (outDir ++ [n]) = false) :
    ∀ (rest : List RelPath), ∀ (idx : Nat) (fs : FS) (outs : List AbsPath),
      (∀ p ∈ outs, (∃ name, p = outDir ++ [name]) ∧ p ∈ fs) →
      ∀ (res : Except String (List AbsPath)) (fsFinal : FS) (outs' : List AbsPath),
        processInnersV2 arc tempRoot outDir series idx rest fs outs = (res, fsFinal) →
        res = .ok outs' →
        ∀ p ∈ outs', (∃ name, p = outDir ++ [name]) ∧ p ∈ fsFinal := by
  intro rest
  induction rest with
  | nil =>
    intro idx fs outs hinv res fsFinal outs' heq hres p hp
    simp only [processInnersV2] at heq
    cases heq
    injection hres with hres
    subst hres
    exact hinv p hp
  | cons inner rest ih =>
    intro idx fs outs hinv res fsFinal outs' heq hres p hp
    simp only [processInnersV2] at heq
    split at heq
    · cases heq
      simp at hres
    · rename_i iws hext
      split at heq
      · refine ih (idx + 1) _ _ ?_ res fsFinal outs' heq hres p hp
        intro q hq
        rcases List.mem_append.mp hq with hq | hq
        · obtain ⟨⟨nm, hnm⟩, hmem⟩ := hinv q hq
          subst hnm
          exact ⟨⟨nm, rfl⟩,
            mem_rmtree_of_mem
              (List.mem_append_left _ (List.mem_append_left _ hmem))
              (tempSub_not_prefix_of_out _ _ hsep)⟩
        · rw [List.mem_singleton.mp hq]
          exact ⟨⟨_, rfl⟩,
            mem_rmtree_of_mem (List.mem_append_right _ (List.mem_singleton.mpr rfl))
              (tempSub_not_prefix_of_out _ _ hsep)⟩
      · refine ih (idx + 1) _ _ ?_ res fsFinal outs' heq hres p hp
        intro q hq
        obtain ⟨⟨nm, hnm⟩, hmem⟩ := hinv q hq
        subst hnm
        exact ⟨⟨nm, rfl⟩,
          mem_rmtree_of_mem (List.mem_append_left _ hmem)
            (tempSub_not_prefix_of_out _ _ hsep)⟩

theorem processSingleRarV2Body_outputs (arc : ArchiveV2) (tempRoot outDir : AbsPath)
    (fs : FS)
    (hsep : ∀ n, tempRoot.isPrefixOf (outDir ++ [n]) = false) :
    ∀ (res : Except String (List AbsPath)) (fsFinal : FS) (outs' : List AbsPath),
      processSingleRarV2Body arc tempRoot outDir fs = (res, fsFinal) →
      res = .ok outs' →
      ∀ p ∈ outs', (∃ name, p = outDir ++ [name]) ∧ p ∈ fsFinal := by
  intro res fsFinal outs' heq hres p hp
  simp only [processSingleRarV2Body] at heq
  split at heq
  · -- nested branch
    split at heq
    · cases heq
      simp at hres
    · exact processInnersV2_outputs arc tempRoot outDir _ hsep _ 1 _ []
        (fun q hq => absurd hq (List.not_mem_nil q)) res fsFinal outs' heq hres p hp
  · -- flat branch
    split at heq
    · cases heq
      simp at hres
    · split at heq
      · cases heq
        injection hres with hres
        subst hres
        rw [List.mem_singleton.mp hp]
        exact ⟨⟨_, rfl⟩, List.mem_append_right _ (List.mem_singleton.mpr rfl)⟩
      · cases heq
        injection hres with hres
        subst hres
        exact absurd hp (List.not_mem_nil p)

theorem processSingleRarV2_outputs (arc : ArchiveV2) (tempRoot outDir : AbsPath)
    (fs : FS)
    (hsep : ∀ n, tempRoot.isPrefixOf (outDir ++ [n]) = false) :
    ∀ outs', (processSingleRarV2 arc tempRoot outDir fs).1 = .ok outs' →
      ∀ p ∈ outs', p ∈ (processSingleRarV2 arc tempRoot outDir fs).2 := by
  intro outs' hok p hp
  simp only [processSingleRarV2] at hok ⊢
  obtain ⟨⟨nm, hnm⟩, hmem⟩ :=
    processSingleRarV2Body_outputs arc tempRoot outDir fs hsep
      (processSingleRarV2Body arc tempRoot outDir fs).1
      (processSingleRarV2Body arc tempRoot outDir fs).2 outs'
      Prod.mk.eta.symm hok p hp
  subst hnm
  exact mem_rmtree_of_mem hmem (hsep nm)

/-- Claim C1, counterexample: the V1 processor records `completed` even
when inner archives failed to convert.  With its only inner archive
failing, the file is recorded `completed` with an empty `output_files`
list (refuting "`output_files` is non-empty exactly when status is
completed"); with one of two inner archives failing, it is recorded
`completed` with the partial output list. -/
theorem c1_counterexample :
    ((processRarFileV1 arcAllInnerFail ["tmp"] ["out"]
        (ProgressData.addFile {} "d/x.rar") "t0" []).tracker.lookup "d/x.rar").map
      (fun fp => fp.status) = some "completed" ∧
    ((processRarFileV1 arcAllInnerFail ["tmp"] ["out"]
        (ProgressData.addFile {} "d/x.rar") "t0" []).tracker.lookup "d/x.rar").map
      (fun fp => fp.output_files) = some [] ∧
    (processRarFileV1 arcAllInnerFail ["tmp"] ["out"]
        (ProgressData.addFile {} "d/x.rar") "t0" []).result.success = true ∧
    ((processRarFileV1 arcPartialInner ["tmp"] ["out"]
        (ProgressData.addFile {} "d/x.rar") "t0" []).tracker.lookup "d/x.rar").map
      (fun fp => fp.status) = some "completed" ∧
    ((processRarFileV1 arcPartialInner ["tmp"] ["out"]
        (ProgressData.addFile {} "d/x.rar") "t0" []).tracker.lookup "d/x.rar").map
      (fun fp => fp.output_files) = some [[("out" : String), "x v02.cbz"]] := by
  exact ⟨by decide, by decide, by decide, by decide, by decide⟩

/-- Claim C1, amended: the completion invariant holds for the V2
processor — a file's result is successful exactly when its recorded
output list is non-empty, and (when the output directory does not sit
inside the per-file temporary root) every recorded output container
actually exists in the filesystem after processing.  The V1 processor
violates the invariant (see the counterexample). -/
theorem c1_amended_v2_invariant (arc : ArchiveV2) (tempRoot outDir : AbsPath)
    (fs : FS)
    (hsep : ∀ n, tempRoot.isPrefixOf (outDir ++ [n]) = false) :
    ((processFileV2 arc tempRoot outDir fs).1.success = true ↔
      (processFileV2 arc tempRoot outDir fs).1.output_files ≠ []) ∧
    ∀ p ∈ (processFileV2 arc tempRoot outDir fs).1.output_files,
      p ∈ (processFileV2 arc tempRoot outDir fs).2 := by
  simp only [processFileV2]
  cases hres : (processSingleRarV2 arc tempRoot outDir fs).1 with
  | error e => simp
  | ok outs =>
    cases houts : outs.isEmpty
    · have hne : outs ≠ [] := by
        intro h
        rw [h] at houts
        simp at houts
      refine ⟨by simp [houts, hne], ?_⟩
      intro p hp
      simp only [houts, Bool.false_eq_true, if_false] at hp ⊢
      exact processSingleRarV2_outputs arc tempRoot outDir fs hsep outs hres p hp
    · have hnil : outs = [] := List.isEmpty_iff.mp houts
      subst hnil
      simp

/-- Witness for C1's amended theorem: the invariant evaluated on a
well-formed nested archive. -/
theorem c1_witness :
    ((processFileV2 arcNestedGoodV2 ["tmp"] ["out"] []).1.success = true ↔
      (processFileV2 arcNestedGoodV2 ["tmp"] ["out"] []).1.output_files ≠ []) :=
  (c1_amended_v2_invariant arcNestedGoodV2 ["tmp"] ["out"] [] (fun _ => rfl)).1

/-! ## Claim C3 -/

/-- Claim C3, counterexample: converting a flat archive with zero
image files, the V1 packer creates no container, yet the processor
records the file `completed` with a phantom output path, and the final
filesystem contains no container at all. -/
theorem c3_counterexample :
    ((processRarFileV1 arcFlatNoImagesV1 ["tmp"] ["out"]
        (ProgressData.addFile {} "y.rar") "t0" []).tracker.lookup "y.rar").map
      (fun fp => fp.status) = some "completed" ∧
    (processRarFileV1 arcFlatNoImagesV1 ["tmp"] ["out"]
        (ProgressData.addFile {} "y.rar") "t0" []).result.output_files
      = [[("out" : String), "y.cbz"]] ∧
    (processRarFileV1 arcFlatNoImagesV1 ["tmp"] ["out"]
        (ProgressData.addFile {} "y.rar") "t0" []).fs = [] := by
  exact ⟨by decide, by decide, by decide⟩

/-- Claim C3, amended: the claim holds of the V2 processor — packing a
workspace with zero qualifying images returns a no-content result
without writing any container (the final filesystem contains nothing
new), and `process_file` records the archive as failed with error
`未生成任何输出文件`, never as completed with an empty or phantom
output list.  The V1 processor instead records such a file completed
with a phantom output (see the counterexample). -/
theorem c3_amended_v2_no_content (arc : ArchiveV2) (tempRoot outDir : AbsPath)
    (fs : FS) (ws : List RelPath)
    (hflat : (isNestedRarV2 arc.inspect).1 = false)
    (hex : arc.extractAll = .ok ws)
    (himg : ws.filter qualifiesImage = []) :
    (processFileV2 arc tempRoot outDir fs).1.success = false ∧
    (processFileV2 arc tempRoot outDir fs).1.output_files = [] ∧
    (processFileV2 arc tempRoot outDir fs).1.error = some "未生成任何输出文件" ∧
    ∀ p ∈ (processFileV2 arc tempRoot outDir fs).2, p ∈ fs := by
  have hcbz : createCbzV2 ws = none := by
    simp [createCbzV2, himg]
  have hbody : processSingleRarV2Body arc tempRoot outDir fs
      = (.ok [], fs ++ ws.map (fun p => tempRoot ++ ["extract"] ++ p)) := by
    simp [processSingleRarV2Body, hflat, hex, hcbz]
  have hstep : processSingleRarV2 arc tempRoot outDir fs
      = (.ok [], rmtree tempRoot
          (fs ++ ws.map (fun p => tempRoot ++ ["extract"] ++ p))) := by
    simp [processSingleRarV2, hbody]
  refine ⟨?_, ?_, ?_, ?_⟩
  · simp [processFileV2, hstep]
  · simp [processFileV2, hstep]
  · simp [processFileV2, hstep]
  · intro p hp
    simp only [processFileV2, hstep] at hp
    have hmem := mem_of_mem_rmtree hp
    have hpre := not_isPrefixOf_of_mem_rmtree hp
    rcases List.mem_append.mp hmem with h | h
    · exact h
    · exfalso
      obtain ⟨q, hq, hqp⟩ := List.mem_map.mp h
      rw [← hqp] at hpre
      have htrue := isPrefixOf_append_self tempRoot (["extract"] ++ q)
      rw [← List.append_assoc] at htrue
      rw [hpre] at htrue
      simp at htrue

/-- Witness for C3's amended theorem: a concrete image-free flat
archive through the V2 pipeline. -/
theorem c3_witness :
    (processFileV2 arcFlatNoImagesV2 ["tmp"] ["out"] []).1.success = false ∧
    (processFileV2 arcFlatNoImagesV2 ["tmp"] ["out"] []).1.error
      = some "未生成任何输出文件" :=
  ⟨(c3_amended_v2_no_content arcFlatNoImagesV2 ["tmp"] ["out"] []
      [[("p.txt" : String)]] rfl rfl (by decide)).1,
    (c3_amended_v2_no_content arcFlatNoImagesV2 ["tmp"] ["out"] []
      [[("p.txt" : String)]] rfl rfl (by decide)).2.2.1⟩

/-! ## Claim C8 -/

theorem processFileV2_original (arc : ArchiveV2) (tempRoot outDir : AbsPath)
    (fs : FS) :
    (processFileV2 arc tempRoot outDir fs).1.original_path = arc.path := by
  simp only [processFileV2]
  cases (processSingleRarV2 arc tempRoot outDir fs).1 with
  | error e => simp
  | ok outs => cases houts : outs.isEmpty <;> simp [houts]

theorem processFileV2_failed_error (arc : ArchiveV2) (tempRoot outDir : AbsPath)
    (fs : FS) (h : (processFileV2 arc tempRoot outDir fs).1.success = false) :
    ∃ e, (processFileV2 arc tempRoot outDir fs).1.error = some e := by
  revert h
  simp only [processFileV2]
  cases hres : (processSingleRarV2 arc tempRoot outDir fs).1 with
  | error e =>
    intro h
    refine ⟨e, ?_⟩
    simp
  | ok outs =>
    cases houts : outs.isEmpty
    · intro h
      simp [houts] at h
    · intro h
      refine ⟨"未生成任何输出文件", ?_⟩
      simp [houts]

theorem processBatchV2_tracker_mono (tempRoot outDir : AbsPath) :
    ∀ (arcs : List ArchiveV2) (st : SimpleState) (fs : FS) (x : String),
      x ∈ st → x ∈ (processBatchV2 tempRoot outDir arcs st fs).2.1 := by
  intro arcs
  induction arcs with
  | nil =>
    intro st fs x hx
    exact hx
  | cons arc rest ih =>
    intro st fs x hx
    simp only [processBatchV2]
    cases hskip : simpleIsCompleted st arc.path
    · simp only [Bool.false_eq_true, if_false]
      refine ih _ _ x ?_
      cases hsucc : (processFileV2 arc tempRoot outDir fs).1.success
      · simp only [hsucc, Bool.false_eq_true, if_false]
        exact hx
      · simp only [hsucc, if_true]
        exact List.mem_cons_of_mem _ hx
    · simp only [if_true]
      exact ih _ _ x hx

/-- Claim C8: per-file failures are contained at the file boundary.  In
the V2 batch loop, every processed file yields a result (failures carry
an error text, results originate from the input list), and every input
archive is either represented by a result or was skipped as already
completed — a failure never prevents the remaining files from being
processed.  In the V1 processor a failed per-file result likewise
always carries the error text. -/
theorem c8_per_file_error_containment :
    (∀ (tempRoot outDir : AbsPath) (arcs : List ArchiveV2) (st : SimpleState)
        (fs : FS),
      (∀ r ∈ (processBatchV2 tempRoot outDir arcs st fs).1,
        r.success = false → ∃ e, r.error = some e) ∧
      (∀ r ∈ (processBatchV2 tempRoot outDir arcs st fs).1,
        ∃ arc ∈ arcs, r.original_path = arc.path) ∧
      (∀ arc ∈ arcs,
        (∃ r ∈ (processBatchV2 tempRoot outDir arcs st fs).1,
          r.original_path = arc.path) ∨
        simpleIsCompleted (processBatchV2 tempRoot outDir arcs st fs).2.1 arc.path
          = true)) ∧
    (∀ (arc : ArchiveV1) (tempRoot outDir : AbsPath) (d : ProgressData)
        (now : String) (fs : FS),
      (processRarFileV1 arc tempRoot outDir d now fs).result.success = false →
      ∃ e, (processRarFileV1 arc tempRoot outDir d now fs).result.error = some e) := by
  constructor
  · intro tempRoot outDir arcs
    induction arcs with
    | nil =>
      intro st fs
      exact ⟨fun r hr => absurd hr (by simp [processBatchV2]),
        fun r hr => absurd hr (by simp [processBatchV2]),
        fun a ha => absurd ha (List.not_mem_nil a)⟩
    | cons arc rest ih =>
      intro st fs
      cases hskip : simpleIsCompleted st arc.path
      · refine ⟨?_, ?_, ?_⟩
        · intro r hr hfail
          simp only [processBatchV2, hskip, Bool.false_eq_true, if_false] at hr
          rcases List.mem_cons.mp hr with h | h
          · subst h
            exact processFileV2_failed_error arc tempRoot outDir fs hfail
          · exact (ih _ _).1 r h hfail
        · intro r hr
          simp only [processBatchV2, hskip, Bool.false_eq_true, if_false] at hr
          rcases List.mem_cons.mp hr with h | h
          · subst h
            exact ⟨arc, List.mem_cons_self _ _,
              processFileV2_original arc tempRoot outDir fs⟩
          · obtain ⟨a, ha, hpath⟩ := (ih _ _).2.1 r h
            exact ⟨a, List.mem_cons_of_mem _ ha, hpath⟩
        · intro a ha
          simp only [processBatchV2, hskip, Bool.false_eq_true, if_false]
          rcases List.mem_cons.mp ha with h | h
          · subst h
            exact Or.inl ⟨(processFileV2 a tempRoot outDir fs).1,
              List.mem_cons_self _ _, processFileV2_original a tempRoot outDir fs⟩
          · rcases (ih _ _).2.2 a h with ⟨r, hr, hpath⟩ | hcomp
            · exact Or.inl ⟨r, List.mem_cons_of_mem _ hr, hpath⟩
            · exact Or.inr hcomp
      · refine ⟨?_, ?_, ?_⟩
        · intro r hr hfail
          simp only [processBatchV2, hskip, if_true] at hr
          exact (ih _ _).1 r hr hfail
        · intro r hr
          simp only [processBatchV2, hskip, if_true] at hr
          obtain ⟨a, ha, hpath⟩ := (ih _ _).2.1 r hr
          exact ⟨a, List.mem_cons_of_mem _ ha, hpath⟩
        · intro a ha
          simp only [processBatchV2, hskip, if_true]
          rcases List.mem_cons.mp ha with h | h
          · subst h
            refine Or.inr ?_
            have hmem : pyName a.path ∈ st := List.elem_iff.mp hskip
            have hmono := processBatchV2_tracker_mono tempRoot outDir rest st fs
              (pyName a.path) hmem
            exact List.elem_iff.mpr hmono
          · rcases (ih _ _).2.2 a h with hl | hcomp
            · exact Or.inl hl
            · exact Or.inr hcomp
  · intro arc tempRoot outDir d now fs
    simp only [processRarFileV1]
    cases hstep : (if (checkNestedRar arc.inspect).1 = true then
        processNestedRarV1 arc tempRoot outDir fs
      else processSingleRarV1 arc tempRoot outDir fs).1 with
    | ok outs =>
      intro h
      simp at h
    | error e =>
      intro h
      refine ⟨"处理失败: " ++ e, ?_⟩
      simp

/-- Witness for C8: the containment property applied to a
single-archive batch whose file fails. -/
theorem c8_witness :
    (∃ r ∈ (processBatchV2 ["tmp"] ["out"] [arcFlatNoImagesV2] [] []).1,
      r.original_path = arcFlatNoImagesV2.path) ∨
    simpleIsCompleted (processBatchV2 ["tmp"] ["out"] [arcFlatNoImagesV2] [] []).2.1
      arcFlatNoImagesV2.path = true :=
  (c8_per_file_error_containment.1 ["tmp"] ["out"] [arcFlatNoImagesV2] [] []).2.2
    arcFlatNoImagesV2 (List.mem_singleton.mpr rfl)
